import Mathlib

/-!
# watchme: polling file watcher and command driver

A shallow embedding of `src/main.go`.

* `GoMap` embeds `map[string]int64` (the snapshot, path to mtime).
* `Chan` embeds the buffered channel `make(chan struct{}, 1)`.
* `walkFn`, `WalkDir`, `detectChange`, `tick` embed one iteration of the
  `for range ticker.C` loop of `pollDirectory`. What `filepath.WalkDir` finds
  on disk (the callback invocations it makes) is an input; what it returns is
  the error the callback returned, if any.
* `Sys`, `step`, `run` embed the two goroutines (scanner and driver loop of
  `main`) as an interleaving of atomic steps. The only object the goroutines
  share is the channel, whose operations are atomic in Go; everything else a
  tick does is private to the scanner, so a tick is one step, taken at the
  moment of its `select`.

The start of `main` (argument check, `os.Getwd`) is assumed to have succeeded:
`Sys.init` is the state in which both loops begin.
-/

namespace Watchme

/-! ## Data model -/

/-- Value of `m[k]` lookups on the entry list of a map: the value bound to the key. -/
def lookupList (k : String) : List (String × Int) → Option Int
  | [] => none
  | (k', v) :: rest => if k' = k then some v else lookupList k rest

/-- Go `map[string]int64`: finitely many entries with pairwise distinct keys.
The order of `entries` stands for the (unspecified) order in which `range`
visits the map. `int64` values are only stored and compared, so they are `Int`. -/
structure GoMap where
  entries : List (String × Int)
  nodup : (entries.map Prod.fst).Nodup

namespace GoMap

/-- Result of `make(map[string]int64)`. -/
def empty : GoMap := ⟨[], List.nodup_nil⟩

/-- The two-valued index expression `v, ok := m[k]`; `none` is `ok == false`. -/
def lookup (m : GoMap) (k : String) : Option Int := lookupList k m.entries

/-- Keys of the map. -/
def keys (m : GoMap) : List String := m.entries.map Prod.fst

/-- The assignment `m[k] = v`: binds `k` to `v`, replacing an older binding. -/
def insert (m : GoMap) (k : String) (v : Int) : GoMap :=
  ⟨(k, v) :: m.entries.filter (fun e => decide (e.1 ≠ k)), by
    rw [List.map_cons, List.nodup_cons]
    constructor
    · intro hmem
      rcases List.mem_map.1 hmem with ⟨e, he, hek⟩
      have := (List.mem_filter.1 he).2
      simp at this
      exact this hek
    · exact ((List.filter_sublist m.entries).map Prod.fst).nodup m.nodup⟩

end GoMap

/-- Two maps are equal as path to mtime maps when every key has the same binding. -/
def MapEq (a b : GoMap) : Prop := ∀ p : String, a.lookup p = b.lookup p

/-- Buffered channel `chan struct{}`: the elements carry no data, so the
channel is its number of buffered elements, `len(change)`. -/
structure Chan where
  len : Nat
deriving DecidableEq, Repr

namespace Chan

/-- Capacity given in `make(chan struct{}, 1)`. -/
def cap : Nat := 1

/-- Result of `make(chan struct{}, 1)`. -/
def make : Chan := ⟨0⟩

/-- The statement `select { case change <- struct{}{}: default: }`: a send
that is taken when the buffer has room and skipped otherwise. The flag tells
whether the send case was taken. -/
def trySend (c : Chan) : Chan × Bool :=
  if c.len < cap then (⟨c.len + 1⟩, true) else (c, false)

/-- The receive `<-change`: `none` when the buffer is empty (the receiver blocks). -/
def recv (c : Chan) : Option Chan :=
  if c.len > 0 then some ⟨c.len - 1⟩ else none

end Chan

/-- A `time.Time` as Unix seconds plus nanoseconds within the second. -/
structure Time where
  sec : Int
  nsec : Nat
deriving DecidableEq, Repr

/-- The method `Time.Unix()`: whole seconds since the epoch. -/
def Time.Unix (t : Time) : Int := t.sec

/-- The part of `fs.FileInfo` the program reads. -/
structure FileInfo where
  modTime : Time
deriving DecidableEq, Repr

/-- The type bits of an entry, `fs.DirEntry.Type()`. -/
inductive FileType where
  | regular
  | dir
  | symlink
  | other
deriving DecidableEq, Repr

/-- An `os.DirEntry`: its type and the outcome of `d.Info()`. -/
structure DirEntry where
  type : FileType
  info : Except String FileInfo

/-- The method `d.IsDir()`. -/
def DirEntry.IsDir (d : DirEntry) : Bool := decide (d.type = FileType.dir)

/-- Whether the entry is a regular file, `d.Type().IsRegular()`. -/
def DirEntry.IsRegular (d : DirEntry) : Bool := decide (d.type = FileType.regular)

/-- One invocation of the callback by `filepath.WalkDir`: either with a
non-nil `err` (the entry could not be read) or with an entry and a nil `err`. -/
inductive Visit where
  | failed (path : String) (err : String)
  | entry (path : String) (d : DirEntry)

/-- Path argument of a callback invocation. -/
def Visit.path : Visit → String
  | .failed p _ => p
  | .entry p _ => p

/-- What `filepath.WalkDir` finds during one tick: the callback invocations it
makes, in order. A root that cannot be read is the single invocation
`Visit.failed root err`. -/
structure WalkOutcome where
  visits : List Visit

/-! ## The scanner -/

/-- The callback passed to `filepath.WalkDir` (lines 68-82); `newState` is the
captured map, the second component the returned `error`. -/
def walkFn (newState : GoMap) : Visit → GoMap × Option String
  | .failed _ _ => (newState, none)
  | .entry path d =>
    if d.IsDir then (newState, none)
    else
      match d.info with
      | .error _ => (newState, none)
      | .ok info => (newState.insert path info.modTime.Unix, none)

/-- The walk: calls `fn` on every visit in order, stops at the first
invocation that returns an error and returns that error, and returns nil when
no invocation returned one. Every error the walk meets is handed to `fn`; the
walk has no error of its own. -/
def WalkDir (fn : GoMap → Visit → GoMap × Option String) :
    GoMap → List Visit → GoMap × Option String
  | acc, [] => (acc, none)
  | acc, v :: vs =>
    match fn acc v with
    | (acc', some e) => (acc', some e)
    | (acc', none) => WalkDir fn acc' vs

/-- The comparison of lines 89-105: the first loop ranges over `newState`, the
second, run only when the first found nothing, over `state`. A loop that sets
`changed` and breaks at the first hit is `List.any`. -/
def detectChange (state newState : GoMap) : Bool :=
  let changed := newState.entries.any (fun e =>
    match state.lookup e.1 with
    | none => true
    | some prev => decide (prev ≠ e.2))
  if !changed then
    state.entries.any (fun e =>
      match newState.lookup e.1 with
      | none => true
      | some _ => false)
  else changed

/-- Outcome of one tick: the accepted snapshot and the channel afterwards,
whether a change was detected, whether the send case of the `select` was
taken, and what was written to standard error. -/
structure TickResult where
  state : GoMap
  change : Chan
  changed : Bool
  sent : Bool
  stderr : List String

/-- The snapshot `newState` a tick builds from the walk. -/
def snapshotOf (w : WalkOutcome) : GoMap := (WalkDir walkFn GoMap.empty w.visits).1

/-- One iteration of `for range ticker.C` in `pollDirectory` (lines 64-116).
On a walk error the tick ends at `continue` and the map built so far is dropped. -/
def tick (state : GoMap) (change : Chan) (w : WalkOutcome) : TickResult :=
  match WalkDir walkFn GoMap.empty w.visits with
  | (_, some e) =>
    { state := state, change := change, changed := false, sent := false,
      stderr := ["Watch: error walking directory: " ++ e ++ "\n"] }
  | (newState, none) =>
    if detectChange state newState then
      let r := change.trySend
      { state := newState, change := r.1, changed := true, sent := r.2, stderr := [] }
    else
      { state := state, change := change, changed := false, sent := false, stderr := [] }

/-- The error `filepath.WalkDir` returns to `pollDirectory` at a tick. -/
def walkErr (w : WalkOutcome) : Option String := (WalkDir walkFn GoMap.empty w.visits).2

/-! ## The two goroutines -/

/-- Where the driver loop of `main` (lines 34-53) stands: blocked in the
receive of line 35, inside `cmd.Run()`, at the test `len(change) > 0` of the
drain loop, or at the receive of line 51. -/
inductive PC where
  | waiting
  | running
  | drainTest
  | drainRecv
deriving DecidableEq, Repr

/-- State of the process: the scanner's accepted snapshot, the channel, and
the driver's position. -/
structure Sys where
  state : GoMap
  change : Chan
  pc : PC

/-- State after `main` has created the channel and started `pollDirectory`. -/
def Sys.init : Sys := { state := GoMap.empty, change := Chan.make, pc := PC.waiting }

/-- A scheduling choice: the scanner runs one tick (with what the walk does),
or the driver takes its next step. -/
inductive Action where
  | tick (w : WalkOutcome)
  | driver

/-- One atomic step; `none` when the chosen goroutine is blocked. The driver's
diagnostics and the exit status of the command do not influence control flow
(both branches of line 43 continue with the drain loop) and are left out. -/
def step (s : Sys) : Action → Option Sys
  | .tick w =>
    let r := tick s.state s.change w
    some { state := r.state, change := r.change, pc := s.pc }
  | .driver =>
    match s.pc with
    | .waiting =>
      match s.change.recv with
      | none => none
      | some c => some { s with change := c, pc := PC.running }
    | .running => some { s with pc := PC.drainTest }
    | .drainTest =>
      if s.change.len > 0 then some { s with pc := PC.drainRecv }
      else some { s with pc := PC.waiting }
    | .drainRecv =>
      match s.change.recv with
      | none => none
      | some c => some { s with change := c, pc := PC.drainTest }

/-- Execution of a schedule; `none` when some chosen step was blocked. -/
def run (s : Sys) : List Action → Option Sys
  | [] => some s
  | a :: as =>
    match step s a with
    | none => none
    | some s' => run s' as

/-! ## Notions used to state the properties -/

/-- Whether a scheduling choice is a tick of the scanner that detects a change
when taken in state `s`. -/
def detects (s : Sys) : Action → Bool
  | .tick w => (tick s.state s.change w).changed
  | .driver => false

/-- The snapshot observed by the most recent tick of a schedule whose walk
succeeded, or `m` when there is none. -/
def lastObserved (m : GoMap) : List Action → GoMap
  | [] => m
  | .tick w :: as =>
    match walkErr w with
    | none => lastObserved (snapshotOf w) as
    | some _ => lastObserved m as
  | .driver :: as => lastObserved m as

/-- A walk that observes a tree without recorded files or that fails. -/
def observesNothing : Action → Prop
  | .tick w => walkErr w ≠ none ∨ (snapshotOf w).entries = []
  | .driver => True

/-- A tick whose walk fails, or a driver step. -/
def notSuccessfulTick : Action → Prop
  | .tick w => walkErr w ≠ none
  | .driver => True

/-- A driver step, or a tick whose walk succeeds and observes the snapshot `snap`. -/
def observes (snap : GoMap) : Action → Prop
  | .tick w => walkErr w = none ∧ MapEq (snapshotOf w) snap
  | .driver => True

/-! ## Example inputs -/

/-- A regular file whose metadata can be read, with the given mtime. -/
def regularFile (sec : Int) (nsec : Nat) : DirEntry :=
  { type := FileType.regular, info := Except.ok { modTime := { sec := sec, nsec := nsec } } }

/-- The watched root as an entry. -/
def rootDir : DirEntry :=
  { type := FileType.dir, info := Except.ok { modTime := { sec := 50, nsec := 0 } } }

/-- A symbolic link whose metadata can be read. -/
def symLink : DirEntry :=
  { type := FileType.symlink, info := Except.ok { modTime := { sec := 70, nsec := 0 } } }

/-- Walk of a root that holds the single file `a.txt`. -/
def exTree : WalkOutcome :=
  { visits := [Visit.entry "/w" rootDir, Visit.entry "/w/a.txt" (regularFile 100 200000000)] }

/-- The same tree after `a.txt` was written again within the same second. -/
def exTreeSameSecond : WalkOutcome :=
  { visits := [Visit.entry "/w" rootDir, Visit.entry "/w/a.txt" (regularFile 100 800000000)] }

/-- The same tree after `a.txt` was written again a second later. -/
def exTreeModified : WalkOutcome :=
  { visits := [Visit.entry "/w" rootDir, Visit.entry "/w/a.txt" (regularFile 101 0)] }

/-- Walk of a root that holds only a symbolic link. -/
def exTreeLink : WalkOutcome :=
  { visits := [Visit.entry "/w" rootDir, Visit.entry "/w/link" symLink] }

/-- Walk of a root that cannot be read: the callback is invoked once, with
the error of the root. -/
def exRootInaccessible : WalkOutcome :=
  { visits := [Visit.failed "/w" "permission denied"] }

/-- A regular file whose metadata cannot be read. -/
def unreadableFile : DirEntry :=
  { type := FileType.regular, info := Except.error "permission denied" }

/-- The tree of `exTree` with a second regular file whose metadata cannot be read. -/
def exTreeUnreadableAdded : WalkOutcome :=
  { visits := [Visit.entry "/w" rootDir, Visit.entry "/w/a.txt" (regularFile 100 200000000),
      Visit.entry "/w/b.txt" unreadableFile] }

/-- The state after a second tick has observed the modification while the
command runs. -/
def exAfterSecondTick : Sys :=
  { state := snapshotOf exTreeModified, change := { len := 1 }, pc := PC.running }

/-- A schedule in which the file is rewritten while the command runs but is
polled only after the drain loop has exited: first tick, receive, command
ends, drain test, second tick, receive. -/
def exLatePoll : List Action :=
  [Action.tick exTree, Action.driver, Action.driver, Action.driver,
   Action.tick exTreeModified, Action.driver]

/-- The state after the first tick has observed `exTree`. -/
def exAfterFirstTick : Sys :=
  { state := snapshotOf exTree, change := { len := 1 }, pc := PC.waiting }

/-- A schedule: the scanner sees `exTree`, the driver starts the command, the
scanner sees a modification while the command runs, the command ends, and the
driver drains the channel up to the last test of the drain loop. -/
def exSchedule : List Action :=
  [Action.tick exTree, Action.driver, Action.tick exTreeModified, Action.driver,
   Action.driver, Action.driver]

/-- The state `exSchedule` leads to: the driver is at the test of the drain loop. -/
def exAtDrainTest : Sys :=
  { state := snapshotOf exTreeModified, change := { len := 0 }, pc := PC.drainTest }

/-- The state after the drain loop has exited. -/
def exDrained : Sys :=
  { state := snapshotOf exTreeModified, change := { len := 0 }, pc := PC.waiting }

/-! ## Map lemmas -/

theorem lookupList_eq_some_iff (l : List (String × Int)) (h : (l.map Prod.fst).Nodup)
    (k : String) (v : Int) : lookupList k l = some v ↔ (k, v) ∈ l := by
  induction l with
  | nil => simp [lookupList]
  | cons e rest ih =>
    obtain ⟨k', v'⟩ := e
    rw [List.map_cons, List.nodup_cons] at h
    by_cases hk : k' = k
    · subst hk
      simp only [lookupList, if_true, List.mem_cons, Prod.mk.injEq, true_and, Option.some.injEq]
      constructor
      · intro hv; exact Or.inl hv.symm
      · rintro (hv | hv)
        · exact hv.symm
        · exact absurd (List.mem_map.2 ⟨(k', v), hv, rfl⟩) h.1
    · simp only [lookupList, if_neg hk, List.mem_cons, Prod.mk.injEq]
      rw [ih h.2]
      constructor
      · intro hv; exact Or.inr hv
      · rintro (⟨hk', _⟩ | hv)
        · exact absurd hk'.symm hk
        · exact hv

theorem lookupList_eq_none_iff (l : List (String × Int)) (k : String) :
    lookupList k l = none ↔ k ∉ l.map Prod.fst := by
  induction l with
  | nil => simp [lookupList]
  | cons e rest ih =>
    obtain ⟨k', v'⟩ := e
    by_cases hk : k' = k
    · subst hk; simp [lookupList]
    · simp only [lookupList, if_neg hk, List.map_cons, List.mem_cons, not_or]
      rw [ih]
      constructor
      · intro h; exact ⟨fun h' => hk h'.symm, h⟩
      · intro h; exact h.2

theorem GoMap.lookup_eq_some_iff (m : GoMap) (k : String) (v : Int) :
    m.lookup k = some v ↔ (k, v) ∈ m.entries :=
  lookupList_eq_some_iff m.entries m.nodup k v

theorem GoMap.lookup_eq_none_iff (m : GoMap) (k : String) :
    m.lookup k = none ↔ k ∉ m.keys :=
  lookupList_eq_none_iff m.entries k

/-! ## The comparison -/

/-- First loop of the comparison: it finds a hit exactly when some path of
the new snapshot is unbound in the old one or bound to another value. -/
theorem firstLoop_iff (state newState : GoMap) :
    newState.entries.any (fun e =>
      match state.lookup e.1 with
      | none => true
      | some prev => decide (prev ≠ e.2)) = true ↔
    ∃ p v, newState.lookup p = some v ∧ state.lookup p ≠ some v := by
  rw [List.any_eq_true]
  constructor
  · rintro ⟨⟨p, v⟩, hmem, hf⟩
    refine ⟨p, v, (newState.lookup_eq_some_iff p v).2 hmem, ?_⟩
    intro hs
    simp [hs] at hf
  · rintro ⟨p, v, hn, hs⟩
    refine ⟨(p, v), (newState.lookup_eq_some_iff p v).1 hn, ?_⟩
    cases hl : state.lookup p with
    | none => simp
    | some prev =>
      simp only [decide_eq_true_eq]
      intro h
      exact hs (by rw [hl, h])

/-- Second loop of the comparison: it finds a hit exactly when some path of
the old snapshot is unbound in the new one. -/
theorem secondLoop_iff (state newState : GoMap) :
    state.entries.any (fun e =>
      match newState.lookup e.1 with
      | none => true
      | some _ => false) = true ↔
    ∃ p, p ∈ state.keys ∧ newState.lookup p = none := by
  rw [List.any_eq_true]
  constructor
  · rintro ⟨⟨p, v⟩, hmem, hf⟩
    refine ⟨p, List.mem_map.2 ⟨(p, v), hmem, rfl⟩, ?_⟩
    cases hl : newState.lookup p with
    | none => rfl
    | some x => simp [hl] at hf
  · rintro ⟨p, hk, hn⟩
    rcases List.mem_map.1 hk with ⟨⟨p', v⟩, hmem, hp⟩
    simp only at hp
    subst hp
    exact ⟨(p', v), hmem, by simp [hn]⟩

theorem detectChange_iff (state newState : GoMap) :
    detectChange state newState = true ↔
      (∃ p v, newState.lookup p = some v ∧ state.lookup p ≠ some v) ∨
      (∃ p, p ∈ state.keys ∧ newState.lookup p = none) := by
  unfold detectChange
  simp only []
  by_cases h1 : newState.entries.any (fun e =>
      match state.lookup e.1 with
      | none => true
      | some prev => decide (prev ≠ e.2)) = true
  · rw [h1]
    simp only [Bool.not_true, Bool.false_eq_true, if_false, true_iff]
    exact Or.inl ((firstLoop_iff state newState).1 h1)
  · have h1' := h1
    rw [Bool.not_eq_true] at h1'
    rw [h1']
    simp only [Bool.not_false, if_true]
    rw [secondLoop_iff]
    constructor
    · intro h; exact Or.inr h
    · rintro (h | h)
      · exact absurd ((firstLoop_iff state newState).2 h) h1
      · exact h

theorem detectChange_iff_not_mapEq (state newState : GoMap) :
    detectChange state newState = true ↔ ¬ MapEq state newState := by
  rw [detectChange_iff]
  constructor
  · rintro (⟨p, v, hn, hs⟩ | ⟨p, hk, hn⟩) hEq
    · exact hs ((hEq p).trans hn)
    · have := (hEq p).trans hn
      exact ((state.lookup_eq_none_iff p).1 this) hk
  · intro hne
    unfold MapEq at hne
    push_neg at hne
    obtain ⟨p, hp⟩ := hne
    cases hn : newState.lookup p with
    | some v =>
      left
      exact ⟨p, v, hn, fun hs => hp (hs.trans hn.symm)⟩
    | none =>
      right
      refine ⟨p, ?_, hn⟩
      by_contra hk
      exact hp (((state.lookup_eq_none_iff p).2 hk).trans hn.symm)

theorem detectChange_eq_false_iff (state newState : GoMap) :
    detectChange state newState = false ↔ MapEq state newState := by
  rw [← Bool.not_eq_true, detectChange_iff_not_mapEq, not_not]

/-- C1. The comparison of `pollDirectory` reports a change exactly when some
path of the new snapshot is absent from the old one or bound to a different
timestamp there, or some path of the old snapshot is absent from the new one;
and that is exactly when the two maps are not equal as path to mtime maps. -/
theorem C1_detectChange_spec (state newState : GoMap) :
    (detectChange state newState = true ↔
      ((∃ p ∈ newState.keys,
          state.lookup p = none ∨
          (∃ prev mtime, state.lookup p = some prev ∧ newState.lookup p = some mtime ∧
            prev ≠ mtime)) ∨
        (∃ p ∈ state.keys, p ∉ newState.keys))) ∧
    (detectChange state newState = true ↔ ¬ MapEq state newState) := by
  refine ⟨?_, detectChange_iff_not_mapEq state newState⟩
  rw [detectChange_iff]
  constructor
  · rintro (⟨p, v, hn, hs⟩ | ⟨p, hk, hn⟩)
    · left
      have hk : p ∈ newState.keys := by
        by_contra hk
        rw [(newState.lookup_eq_none_iff p).2 hk] at hn
        cases hn
      refine ⟨p, hk, ?_⟩
      cases hl : state.lookup p with
      | none => exact Or.inl rfl
      | some prev =>
        right
        refine ⟨prev, v, rfl, hn, ?_⟩
        intro h
        exact hs (by rw [hl, h])
    · right
      exact ⟨p, hk, (newState.lookup_eq_none_iff p).1 hn⟩
  · rintro (⟨p, hk, h | ⟨prev, mtime, hs, hn, hne⟩⟩ | ⟨p, hk, hn⟩)
    · left
      cases hn : newState.lookup p with
      | none => exact absurd hk ((newState.lookup_eq_none_iff p).1 hn)
      | some v => exact ⟨p, v, hn, by rw [h]; simp⟩
    · left
      exact ⟨p, mtime, hn, by rw [hs]; simpa using hne⟩
    · right
      exact ⟨p, hk, (newState.lookup_eq_none_iff p).2 hn⟩

/-! ## The walk and the tick -/

theorem walkFn_snd (acc : GoMap) (v : Visit) : (walkFn acc v).2 = none := by
  cases v with
  | failed p e => rfl
  | entry p d =>
    unfold walkFn
    by_cases hd : d.IsDir = true
    · simp [hd]
    · simp only [hd]
      cases d.info <;> rfl

theorem WalkDir_walkFn (acc : GoMap) (vs : List Visit) :
    WalkDir walkFn acc vs = (vs.foldl (fun a v => (walkFn a v).1) acc, none) := by
  induction vs generalizing acc with
  | nil => rfl
  | cons v vs ih =>
    have h := walkFn_snd acc v
    rw [WalkDir]
    cases hv : walkFn acc v with
    | mk a e =>
      rw [hv] at h
      simp only at h
      subst h
      simp only [List.foldl_cons, hv]
      exact ih a

theorem walkErr_eq (w : WalkOutcome) : walkErr w = none := by
  unfold walkErr
  rw [WalkDir_walkFn]

theorem snapshotOf_eq (w : WalkOutcome) :
    snapshotOf w = w.visits.foldl (fun a v => (walkFn a v).1) GoMap.empty := by
  unfold snapshotOf
  rw [WalkDir_walkFn]

theorem WalkDir_eq (w : WalkOutcome) :
    WalkDir walkFn GoMap.empty w.visits = (snapshotOf w, walkErr w) := rfl

theorem tick_err (state : GoMap) (c : Chan) (w : WalkOutcome) (e : String)
    (h : walkErr w = some e) :
    (tick state c w).state = state ∧ (tick state c w).change = c ∧
      (tick state c w).changed = false ∧ (tick state c w).sent = false ∧
      (tick state c w).stderr = ["Watch: error walking directory: " ++ e ++ "\n"] := by
  unfold tick
  rw [WalkDir_eq, h]
  exact ⟨rfl, rfl, rfl, rfl, rfl⟩

theorem tick_changed (state : GoMap) (c : Chan) (w : WalkOutcome)
    (h : walkErr w = none) (hc : detectChange state (snapshotOf w) = true) :
    (tick state c w).state = snapshotOf w ∧ (tick state c w).change = c.trySend.1 ∧
      (tick state c w).changed = true ∧ (tick state c w).sent = c.trySend.2 ∧
      (tick state c w).stderr = [] := by
  unfold tick
  rw [WalkDir_eq, h]
  simp [hc]

theorem tick_unchanged (state : GoMap) (c : Chan) (w : WalkOutcome)
    (h : walkErr w = none) (hc : detectChange state (snapshotOf w) = false) :
    (tick state c w).state = state ∧ (tick state c w).change = c ∧
      (tick state c w).changed = false ∧ (tick state c w).sent = false ∧
      (tick state c w).stderr = [] := by
  unfold tick
  rw [WalkDir_eq, h]
  simp [hc]

theorem tick_changed_eq (state : GoMap) (c : Chan) (w : WalkOutcome) (h : walkErr w = none) :
    (tick state c w).changed = detectChange state (snapshotOf w) := by
  cases hc : detectChange state (snapshotOf w) with
  | true => exact (tick_changed state c w h hc).2.2.1
  | false => exact (tick_unchanged state c w h hc).2.2.1

theorem tick_state_mapEq (state : GoMap) (c : Chan) (w : WalkOutcome) (h : walkErr w = none) :
    MapEq (tick state c w).state (snapshotOf w) := by
  cases hc : detectChange state (snapshotOf w) with
  | true =>
    rw [(tick_changed state c w h hc).1]
    exact fun _ => rfl
  | false =>
    rw [(tick_unchanged state c w h hc).1]
    exact (detectChange_eq_false_iff _ _).1 hc

theorem trySend_len_le (c : Chan) (h : c.len ≤ 1) : c.trySend.1.len = 1 := by
  unfold Chan.trySend Chan.cap
  by_cases h0 : c.len < 1
  · simp only [h0, if_true]; omega
  · simp only [h0, if_false]; omega

theorem tick_not_changed (state : GoMap) (c : Chan) (w : WalkOutcome)
    (h : (tick state c w).changed = false) :
    (tick state c w).state = state ∧ (tick state c w).change = c ∧
      (tick state c w).sent = false := by
  cases he : walkErr w with
  | some e =>
    have := tick_err state c w e he
    exact ⟨this.1, this.2.1, this.2.2.2.1⟩
  | none =>
    rw [tick_changed_eq state c w he] at h
    have := tick_unchanged state c w he h
    exact ⟨this.1, this.2.1, this.2.2.2.1⟩

/-! ## Schedules -/

theorem step_tick (s : Sys) (w : WalkOutcome) :
    step s (Action.tick w) =
      some { state := (tick s.state s.change w).state,
             change := (tick s.state s.change w).change, pc := s.pc } := rfl

theorem run_cons (s : Sys) (a : Action) (as : List Action) :
    run s (a :: as) = (step s a).bind (fun t => run t as) := by
  rw [run]
  cases step s a <;> rfl

theorem run_append (s : Sys) (as bs : List Action) :
    run s (as ++ bs) = (run s as).bind (fun t => run t bs) := by
  induction as generalizing s with
  | nil => rfl
  | cons a as ih =>
    rw [List.cons_append, run_cons, run_cons]
    cases step s a with
    | none => rfl
    | some t => exact ih t

theorem step_waiting_empty (s : Sys) (hpc : s.pc = PC.waiting) (hlen : s.change.len = 0) :
    step s Action.driver = none := by
  simp [step, hpc, Chan.recv, hlen]

theorem step_len_le (s t : Sys) (a : Action) (h : step s a = some t) (hl : s.change.len ≤ 1) :
    t.change.len ≤ 1 := by
  cases a with
  | tick w =>
    rw [step_tick] at h
    cases h
    simp only
    cases hc : (tick s.state s.change w).changed with
    | false => rw [(tick_not_changed _ _ _ hc).2.1]; exact hl
    | true =>
      cases he : walkErr w with
      | some e => rw [(tick_err _ _ _ e he).2.2.1] at hc; cases hc
      | none =>
        rw [tick_changed_eq _ _ _ he] at hc
        rw [(tick_changed _ _ _ he hc).2.1, trySend_len_le _ hl]
  | driver =>
    cases hpc : s.pc <;> simp only [step, hpc] at h
    · cases hr : s.change.recv with
      | none => rw [hr] at h; cases h
      | some c =>
        rw [hr] at h
        cases h
        simp only [Chan.recv] at hr
        split at hr
        · cases hr; simp only; omega
        · cases hr
    · cases h; exact hl
    · split at h <;> (cases h; exact hl)
    · cases hr : s.change.recv with
      | none => rw [hr] at h; cases h
      | some c =>
        rw [hr] at h
        cases h
        simp only [Chan.recv] at hr
        split at hr
        · cases hr; simp only; omega
        · cases hr

theorem run_len_le (acts : List Action) (s t : Sys) (h : run s acts = some t)
    (hl : s.change.len ≤ 1) : t.change.len ≤ 1 := by
  induction acts generalizing s with
  | nil => cases h; exact hl
  | cons a as ih =>
    rw [run_cons] at h
    cases hs : step s a with
    | none => rw [hs] at h; cases h
    | some u =>
      rw [hs] at h
      exact ih u h (step_len_le s u a hs hl)

theorem step_driver_state (s t : Sys) (h : step s Action.driver = some t) :
    t.state = s.state := by
  cases hpc : s.pc <;> simp only [step, hpc] at h
  · cases hr : s.change.recv with
    | none => rw [hr] at h; cases h
    | some c => rw [hr] at h; cases h; rfl
  · cases h; rfl
  · split at h <;> (cases h; rfl)
  · cases hr : s.change.recv with
    | none => rw [hr] at h; cases h
    | some c => rw [hr] at h; cases h; rfl

theorem run_lastObserved (acts : List Action) (s t : Sys) (m : GoMap)
    (hm : MapEq s.state m) (h : run s acts = some t) :
    MapEq t.state (lastObserved m acts) := by
  induction acts generalizing s m with
  | nil => cases h; exact hm
  | cons a as ih =>
    rw [run_cons] at h
    cases hs : step s a with
    | none => rw [hs] at h; cases h
    | some u =>
      rw [hs] at h
      cases a with
      | tick w =>
        rw [step_tick] at hs
        cases hs
        cases he : walkErr w with
        | none =>
          simp only [lastObserved, he]
          exact ih _ _ (tick_state_mapEq s.state s.change w he) h
        | some e =>
          simp only [lastObserved, he]
          refine ih _ _ ?_ h
          simp only
          rw [(tick_err s.state s.change w e he).1]
          exact hm
      | driver =>
        simp only [lastObserved]
        refine ih _ _ ?_ h
        rw [step_driver_state s u hs]
        exact hm

/-! ## Claims about one tick -/

/-- C2. At a tick whose walk succeeded the accepted snapshot is replaced with
the new snapshot exactly when a change was detected: on a change the accepted
snapshot becomes the new one, also when the channel is full and the send is
skipped; without a change the accepted snapshot and the channel are left as
they were and nothing is sent. -/
theorem C2_accept_iff_changed (state : GoMap) (c : Chan) (w : WalkOutcome)
    (hw : walkErr w = none) :
    (tick state c w).changed = detectChange state (snapshotOf w) ∧
    ((tick state c w).changed = true →
      (tick state c w).state = snapshotOf w ∧
      (c.len < Chan.cap → (tick state c w).sent = true ∧ (tick state c w).change.len = c.len + 1) ∧
      (¬ c.len < Chan.cap → (tick state c w).sent = false ∧ (tick state c w).change = c)) ∧
    ((tick state c w).changed = false →
      (tick state c w).state = state ∧ (tick state c w).change = c ∧
      (tick state c w).sent = false) := by
  refine ⟨tick_changed_eq state c w hw, ?_, tick_not_changed state c w⟩
  intro hc
  rw [tick_changed_eq state c w hw] at hc
  obtain ⟨h1, h2, -, h4, -⟩ := tick_changed state c w hw hc
  refine ⟨h1, ?_, ?_⟩
  · intro hlt
    rw [h4, h2]
    simp [Chan.trySend, hlt]
  · intro hge
    rw [h4, h2]
    simp [Chan.trySend, hge]

/-- C7. The callback returns nil on every path, so the walk never returns
an error and the branch that aborts the tick is never taken. When the root
cannot be read while the accepted snapshot holds `a.txt`, the tick does not
abort: it builds an empty snapshot, detects a change, sends a notification,
replaces the accepted snapshot with the empty map and writes no diagnostic. -/
theorem C7_root_inaccessible :
    (∀ w : WalkOutcome, walkErr w = none) ∧
    (snapshotOf exTree).entries = [("/w/a.txt", 100)] ∧
    (tick (snapshotOf exTree) Chan.make exRootInaccessible).changed = true ∧
    (tick (snapshotOf exTree) Chan.make exRootInaccessible).sent = true ∧
    (tick (snapshotOf exTree) Chan.make exRootInaccessible).change.len = 1 ∧
    (tick (snapshotOf exTree) Chan.make exRootInaccessible).state.entries = [] ∧
    (tick (snapshotOf exTree) Chan.make exRootInaccessible).stderr = [] :=
  ⟨walkErr_eq, by decide, by decide, by decide, by decide, by decide, by decide⟩

/-- C9. After every tick whose walk succeeded, with or without a reported
change, the accepted snapshot equals, as a path to mtime map, the snapshot
that tick observed; so in every reachable state the accepted snapshot is the
one observed by the most recent successful tick, or the empty map when no
tick has succeeded yet. -/
theorem C9_accepted_is_last_observed (acts : List Action) (s : Sys)
    (hrun : run Sys.init acts = some s) :
    (∀ w : WalkOutcome, walkErr w = none →
      MapEq (tick s.state s.change w).state (snapshotOf w)) ∧
    MapEq s.state (lastObserved GoMap.empty acts) :=
  ⟨fun w hw => tick_state_mapEq s.state s.change w hw,
   run_lastObserved acts Sys.init s GoMap.empty (fun _ => rfl) hrun⟩

/-! ## Claims about schedules -/

theorem mapEq_trans {a b c : GoMap} (h1 : MapEq a b) (h2 : MapEq b c) : MapEq a c :=
  fun p => (h1 p).trans (h2 p)

theorem mapEq_symm {a b : GoMap} (h : MapEq a b) : MapEq b a := fun p => (h p).symm

/-- A successful tick that observes a snapshot equal, as a map, to the accepted
one changes nothing. -/
theorem tick_same (state snap : GoMap) (c : Chan) (w : WalkOutcome)
    (hacc : MapEq state snap) (hobs : observes snap (Action.tick w)) :
    (tick state c w).changed = false ∧ (tick state c w).sent = false ∧
      (tick state c w).state = state ∧ (tick state c w).change = c := by
  obtain ⟨hw, hs⟩ := hobs
  have hc : detectChange state (snapshotOf w) = false :=
    (detectChange_eq_false_iff _ _).2 (mapEq_trans hacc (mapEq_symm hs))
  obtain ⟨h1, h2, h3, h4, -⟩ := tick_unchanged state c w hw hc
  exact ⟨h3, h4, h1, h2⟩

theorem run_same_state (acts : List Action) (s t : Sys) (snap : GoMap)
    (hacc : MapEq s.state snap) (hobs : ∀ a ∈ acts, observes snap a)
    (h : run s acts = some t) : t.state = s.state := by
  induction acts generalizing s with
  | nil => cases h; rfl
  | cons a as ih =>
    rw [run_cons] at h
    cases hs : step s a with
    | none => rw [hs] at h; cases h
    | some u =>
      rw [hs] at h
      have hu : u.state = s.state := by
        cases a with
        | tick w =>
          rw [step_tick] at hs
          cases hs
          exact (tick_same s.state snap s.change w hacc (hobs _ (List.mem_cons_self _ _))).2.2.1
        | driver => exact step_driver_state s u hs
      rw [ih u (by rw [hu]; exact hacc) (fun a ha => hobs a (List.mem_cons_of_mem _ ha)) h, hu]

/-- C4. Idempotence. Let a first successful tick observe the snapshot `snap`
from any starting state, and let every later tick of the schedule succeed and
observe the same snapshot, the driver taking steps in between at will. Then
every tick after the first detects no change, sends nothing, and leaves the
accepted snapshot and the channel as they were. -/
theorem C4_idempotent (s0 s1 : Sys) (snap : GoMap) (w : WalkOutcome)
    (hfirst : observes snap (Action.tick w))
    (h1 : step s0 (Action.tick w) = some s1)
    (acts : List Action) (hobs : ∀ a ∈ acts, observes snap a)
    (before after : List Action) (w' : WalkOutcome) (t : Sys)
    (hsplit : acts = before ++ Action.tick w' :: after)
    (ht : run s1 before = some t) :
    (tick t.state t.change w').changed = false ∧
    (tick t.state t.change w').sent = false ∧
    (tick t.state t.change w').state = s1.state ∧
    (tick t.state t.change w').change = t.change := by
  have hacc : MapEq s1.state snap := by
    rw [step_tick] at h1
    cases h1
    exact mapEq_trans (tick_state_mapEq s0.state s0.change w hfirst.1) hfirst.2
  have hbefore : ∀ a ∈ before, observes snap a := by
    intro a ha
    exact hobs a (by rw [hsplit]; exact List.mem_append_left _ ha)
  have hw' : observes snap (Action.tick w') :=
    hobs _ (by rw [hsplit]; exact List.mem_append_right _ (List.mem_cons_self _ _))
  have hts : t.state = s1.state := run_same_state before s1 t snap hacc hbefore ht
  obtain ⟨a1, a2, a3, a4⟩ := tick_same t.state snap t.change w' (by rw [hts]; exact hacc) hw'
  exact ⟨a1, a2, a3.trans hts, a4⟩

/-- C5. Coalescing. In every state reachable by interleaving scanner ticks
and driver steps at most one notification is pending, and a tick that detects
a change there leaves exactly one pending notification: it sends when the
channel is empty and skips the send when it is full, and in both cases the
tick completes. -/
theorem C5_coalescing (acts : List Action) (s : Sys) (hrun : run Sys.init acts = some s)
    (w : WalkOutcome) (hdet : (tick s.state s.change w).changed = true) :
    s.change.len ≤ 1 ∧
    (tick s.state s.change w).change.len = 1 ∧
    (s.change.len = 0 → (tick s.state s.change w).sent = true) ∧
    (s.change.len = 1 → (tick s.state s.change w).sent = false ∧
      (tick s.state s.change w).change = s.change) ∧
    (∃ s', step s (Action.tick w) = some s' ∧ s'.change.len = 1) := by
  have hl : s.change.len ≤ 1 := run_len_le acts Sys.init s hrun (Nat.zero_le 1)
  have he : walkErr w = none := by
    cases he : walkErr w with
    | none => rfl
    | some e => rw [(tick_err _ _ _ e he).2.2.1] at hdet; cases hdet
  have hc := hdet
  rw [tick_changed_eq _ _ _ he] at hc
  obtain ⟨-, h2, -, h4, -⟩ := tick_changed s.state s.change w he hc
  have hlen : (tick s.state s.change w).change.len = 1 := by
    rw [h2]; exact trySend_len_le _ hl
  refine ⟨hl, hlen, ?_, ?_, ?_⟩
  · intro h0
    rw [h4]
    simp [Chan.trySend, Chan.cap, h0]
  · intro h1
    rw [h4, h2]
    simp [Chan.trySend, Chan.cap, h1]
  · exact ⟨_, step_tick s w, hlen⟩

/-- From a state where the driver waits on an empty channel, a schedule either
contains a tick that detects a change or leaves the driver waiting on an empty
channel. -/
theorem quiet_or_detect (post : List Action) (s1 s2 : Sys)
    (hpc : s1.pc = PC.waiting) (hlen : s1.change.len = 0) (hrun : run s1 post = some s2) :
    (∃ p1 a p2 t, post = p1 ++ a :: p2 ∧ run s1 p1 = some t ∧ detects t a = true) ∨
    (s2.pc = PC.waiting ∧ s2.change.len = 0 ∧ s2.state = s1.state) := by
  induction post generalizing s1 with
  | nil => cases hrun; exact Or.inr ⟨hpc, hlen, rfl⟩
  | cons a as ih =>
    rw [run_cons] at hrun
    cases a with
    | driver =>
      rw [step_waiting_empty s1 hpc hlen] at hrun
      cases hrun
    | tick w =>
      cases hd : (tick s1.state s1.change w).changed with
      | true => exact Or.inl ⟨[], Action.tick w, as, s1, rfl, rfl, hd⟩
      | false =>
        obtain ⟨e1, e2, -⟩ := tick_not_changed _ _ _ hd
        rw [step_tick] at hrun
        simp only [Option.bind] at hrun
        have hpc' : (Sys.mk (tick s1.state s1.change w).state
            (tick s1.state s1.change w).change s1.pc).pc = PC.waiting := hpc
        have hlen' : (Sys.mk (tick s1.state s1.change w).state
            (tick s1.state s1.change w).change s1.pc).change.len = 0 := by
          simp only; rw [e2]; exact hlen
        rcases ih _ hpc' hlen' hrun with ⟨p1, a, p2, t, hp, ht, hdet⟩ | ⟨g1, g2, g3⟩
        · refine Or.inl ⟨Action.tick w :: p1, a, p2, t, by rw [hp]; rfl, ?_, hdet⟩
          rw [run_cons, step_tick]
          exact ht
        · exact Or.inr ⟨g1, g2, g3.trans e1⟩

/-- C6. Drain correctness. In every execution, at the step where the drain
loop exits the channel is empty, whatever notifications were sent while the
command ran or while draining, and the driver cannot start the command again
at once; the snapshots observed so far stay accepted; and after that point the
driver leaves its wait (starts the next command) only if some tick taken
after the drain point detected a change. -/
theorem C6_drain_correct (acts : List Action) (s0 s1 : Sys)
    (hrun : run Sys.init acts = some s0) (hpc : s0.pc = PC.drainTest)
    (hexit : step s0 Action.driver = some s1) (hidle : s1.pc = PC.waiting) :
    s1.change.len = 0 ∧
    step s1 Action.driver = none ∧
    MapEq s1.state (lastObserved GoMap.empty acts) ∧
    ∀ (post : List Action) (s2 : Sys), run s1 post = some s2 → s2.pc ≠ PC.waiting →
      ∃ p1 a p2 t, post = p1 ++ a :: p2 ∧ run s1 p1 = some t ∧ detects t a = true := by
  have hlen : s1.change.len = 0 := by
    simp only [step, hpc] at hexit
    split at hexit
    · cases hexit; simp at hidle
    · rename_i hn
      cases hexit
      simp only
      omega
  have hst : MapEq s1.state (lastObserved GoMap.empty acts) := by
    rw [step_driver_state s0 s1 hexit]
    exact run_lastObserved acts Sys.init s0 GoMap.empty (fun _ => rfl) hrun
  refine ⟨hlen, step_waiting_empty s1 hidle hlen, hst, ?_⟩
  intro post s2 hpost hne
  rcases quiet_or_detect post s1 s2 hidle hlen hpost with h | h
  · exact h
  · exact absurd h.1 hne

theorem detectChange_of_empty (state snap : GoMap) (h : state.entries = []) :
    detectChange state snap = true ↔ snap.entries ≠ [] := by
  cases hs : snap.entries with
  | nil => simp [detectChange, h, hs]
  | cons e rest => simp [detectChange, GoMap.lookup, h, hs, lookupList]

/-- While every successful tick observes an empty snapshot, nothing happens:
the accepted snapshot stays empty, the channel stays empty, the driver waits. -/
theorem run_quiet (acts : List Action) (s t : Sys) (hpc : s.pc = PC.waiting)
    (hlen : s.change.len = 0) (hst : s.state.entries = [])
    (hobs : ∀ a ∈ acts, observesNothing a) (hrun : run s acts = some t) :
    t.pc = PC.waiting ∧ t.change.len = 0 ∧ t.state.entries = [] := by
  induction acts generalizing s with
  | nil => cases hrun; exact ⟨hpc, hlen, hst⟩
  | cons a as ih =>
    rw [run_cons] at hrun
    cases a with
    | driver =>
      rw [step_waiting_empty s hpc hlen] at hrun
      cases hrun
    | tick w =>
      have hd : (tick s.state s.change w).changed = false := by
        cases he : walkErr w with
        | some e => exact (tick_err _ _ _ e he).2.2.1
        | none =>
          rw [tick_changed_eq _ _ _ he, ← Bool.not_eq_true, detectChange_of_empty _ _ hst]
          rcases hobs _ (List.mem_cons_self _ _) with h | h
          · exact absurd he h
          · simp [h]
      obtain ⟨e1, e2, -⟩ := tick_not_changed _ _ _ hd
      rw [step_tick] at hrun
      simp only [Option.bind] at hrun
      have hpc' : (Sys.mk (tick s.state s.change w).state
          (tick s.state s.change w).change s.pc).pc = PC.waiting := hpc
      have hlen' : (Sys.mk (tick s.state s.change w).state
          (tick s.state s.change w).change s.pc).change.len = 0 := by
        simp only; rw [e2]; exact hlen
      have hst' : (Sys.mk (tick s.state s.change w).state
          (tick s.state s.change w).change s.pc).state.entries = [] := by
        simp only; rw [e1]; exact hst
      exact ih _ hpc' hlen' hst' (fun a ha => hobs a (List.mem_cons_of_mem _ ha)) hrun

theorem observesNothing_of_notSuccessfulTick (a : Action) (h : notSuccessfulTick a) :
    observesNothing a := by
  cases a with
  | tick w => exact Or.inl h
  | driver => trivial

/-- C10. From the initial state, the first tick whose walk succeeds detects
a change and sends a notification exactly when the snapshot it observes is
non-empty, and then the driver starts the command; and as long as every
successful tick observes an empty snapshot, no tick detects a change or sends
and the driver keeps waiting on an empty channel. -/
theorem C10_startup (pre : List Action) (s : Sys) (hpre : ∀ a ∈ pre, notSuccessfulTick a)
    (hrun : run Sys.init pre = some s) (w : WalkOutcome) (hw : walkErr w = none) :
    ((tick s.state s.change w).changed = true ↔ (snapshotOf w).entries ≠ []) ∧
    (tick s.state s.change w).sent = (tick s.state s.change w).changed ∧
    ((snapshotOf w).entries ≠ [] →
      ∃ s1 s2, step s (Action.tick w) = some s1 ∧ s1.change.len = 1 ∧
        step s1 Action.driver = some s2 ∧ s2.pc = PC.running) ∧
    (∀ (acts : List Action) (t : Sys), (∀ a ∈ acts, observesNothing a) →
      run Sys.init acts = some t →
      t.pc = PC.waiting ∧ t.change.len = 0 ∧
      ∀ w', (observesNothing (Action.tick w')) →
        (tick t.state t.change w').changed = false ∧ (tick t.state t.change w').sent = false) := by
  obtain ⟨hpc, hlen, hst⟩ := run_quiet pre Sys.init s rfl rfl rfl
    (fun a ha => observesNothing_of_notSuccessfulTick a (hpre a ha)) hrun
  have hiff : (tick s.state s.change w).changed = true ↔ (snapshotOf w).entries ≠ [] := by
    rw [tick_changed_eq _ _ _ hw]
    exact detectChange_of_empty _ _ hst
  have hsent : (tick s.state s.change w).sent = (tick s.state s.change w).changed := by
    cases hc : (tick s.state s.change w).changed with
    | false => exact (tick_not_changed _ _ _ hc).2.2
    | true =>
      have hc' := hc
      rw [tick_changed_eq _ _ _ hw] at hc'
      rw [(tick_changed _ _ _ hw hc').2.2.2.1]
      simp [Chan.trySend, Chan.cap, hlen]
  refine ⟨hiff, hsent, ?_, ?_⟩
  · intro hne
    have hc := hiff.2 hne
    have hc' := hc
    rw [tick_changed_eq _ _ _ hw] at hc'
    have hl1 : (tick s.state s.change w).change.len = 1 := by
      rw [(tick_changed _ _ _ hw hc').2.1]
      exact trySend_len_le _ (by omega)
    refine ⟨_, { state := (tick s.state s.change w).state,
                 change := ⟨(tick s.state s.change w).change.len - 1⟩,
                 pc := PC.running }, step_tick s w, hl1, ?_, rfl⟩
    simp [step, hpc, Chan.recv, hl1]
  · intro acts t hobs ht
    obtain ⟨g1, g2, g3⟩ := run_quiet acts Sys.init t rfl rfl rfl hobs ht
    refine ⟨g1, g2, ?_⟩
    intro w' hw'
    have hd : (tick t.state t.change w').changed = false := by
      cases he : walkErr w' with
      | some e => exact (tick_err _ _ _ e he).2.2.1
      | none =>
        rw [tick_changed_eq _ _ _ he, ← Bool.not_eq_true, detectChange_of_empty _ _ g3]
        rcases hw' with h | h
        · exact absurd he h
        · simp [h]
    exact ⟨hd, (tick_not_changed _ _ _ hd).2.2⟩

/-! ## The snapshot built by the walk -/

theorem lookupList_filter (l : List (String × Int)) (k p : String) :
    lookupList p (l.filter (fun e => decide (e.1 ≠ k))) =
      if k = p then none else lookupList p l := by
  induction l with
  | nil => simp [lookupList]
  | cons e rest ih =>
    obtain ⟨k', v'⟩ := e
    by_cases hk : k' = k
    · subst hk
      simp only [List.filter_cons, ne_eq, not_true_eq_false, decide_False, Bool.false_eq_true,
        if_false, ih, lookupList]
      by_cases hp : k' = p
      · simp [hp]
      · simp [hp]
    · have hd : decide (k' ≠ k) = true := by simpa using hk
      simp only [List.filter_cons, hd, if_true, lookupList, ih]
      by_cases hp : k' = p
      · subst hp
        have : ¬ k = k' := fun h => hk h.symm
        simp [this]
      · simp [hp]

theorem GoMap.lookup_insert (m : GoMap) (k : String) (v : Int) (p : String) :
    (m.insert k v).lookup p = if k = p then some v else m.lookup p := by
  unfold GoMap.lookup GoMap.insert
  simp only [lookupList]
  by_cases hk : k = p
  · simp [hk]
  · simp only [hk, if_false]
    rw [lookupList_filter]
    simp [hk]

/-- The callback either leaves the map alone or, on a non-directory entry
whose metadata can be read, binds the path to the mtime in seconds. -/
theorem walkFn_cases (acc : GoMap) (v : Visit) :
    ((walkFn acc v).1 = acc ∧
      ¬ ∃ p d info, v = Visit.entry p d ∧ d.IsDir = false ∧ d.info = Except.ok info) ∨
    (∃ p d info, v = Visit.entry p d ∧ d.IsDir = false ∧ d.info = Except.ok info ∧
      (walkFn acc v).1 = acc.insert p info.modTime.Unix) := by
  cases v with
  | failed q e =>
    left
    refine ⟨rfl, ?_⟩
    rintro ⟨p, d, info, h, -⟩
    cases h
  | entry q d =>
    by_cases hd : d.IsDir = true
    · left
      refine ⟨by simp [walkFn, hd], ?_⟩
      rintro ⟨p, d', info, h, hd', -⟩
      cases h
      rw [hd] at hd'
      cases hd'
    · have hd' : d.IsDir = false := by simpa using hd
      cases hi : d.info with
      | error e =>
        left
        refine ⟨by simp [walkFn, hd', hi], ?_⟩
        rintro ⟨p, d', info, h, -, hi'⟩
        cases h
        rw [hi] at hi'
        cases hi'
      | ok info =>
        right
        exact ⟨q, d, info, rfl, hd', hi, by simp [walkFn, hd', hi]⟩

theorem walkFn_record (acc : GoMap) (p : String) (d : DirEntry) (info : FileInfo)
    (hd : d.IsDir = false) (hi : d.info = Except.ok info) :
    (walkFn acc (Visit.entry p d)).1 = acc.insert p info.modTime.Unix := by
  simp [walkFn, hd, hi]

/-- Visits that are not entries at path `p` leave the binding of `p` alone. -/
theorem lookup_foldl_of_no_entry (vs : List Visit) (acc : GoMap) (p : String)
    (h : ∀ d, Visit.entry p d ∉ vs) :
    (vs.foldl (fun a v => (walkFn a v).1) acc).lookup p = acc.lookup p := by
  induction vs generalizing acc with
  | nil => rfl
  | cons v vs ih =>
    rw [List.foldl_cons, ih _ (fun d hd => h d (List.mem_cons_of_mem _ hd))]
    rcases walkFn_cases acc v with ⟨h1, -⟩ | ⟨q, d, info, hv, -, -, h1⟩
    · rw [h1]
    · rw [h1, GoMap.lookup_insert]
      have hqp : ¬ q = p := by
        intro hqp
        subst hqp
        exact h d (by rw [hv]; exact List.mem_cons_self _ _)
      simp [hqp]

theorem no_entry_of_not_mem_paths (vs : List Visit) (p : String)
    (h : p ∉ vs.map Visit.path) : ∀ d, Visit.entry p d ∉ vs := by
  intro d hd
  exact h (List.mem_map.2 ⟨_, hd, rfl⟩)

/-- A path is bound after the walk exactly when it was bound before or some
visit recorded it. -/
theorem lookup_foldl_ne_none (vs : List Visit) (acc : GoMap) (p : String) :
    (vs.foldl (fun a v => (walkFn a v).1) acc).lookup p ≠ none ↔
      acc.lookup p ≠ none ∨
      ∃ d info, Visit.entry p d ∈ vs ∧ d.IsDir = false ∧ d.info = Except.ok info := by
  induction vs generalizing acc with
  | nil => simp
  | cons v vs ih =>
    rw [List.foldl_cons, ih]
    rcases walkFn_cases acc v with ⟨h1, hno⟩ | ⟨q, d, info, hv, hd, hi, h1⟩
    · rw [h1]
      constructor
      · rintro (h | ⟨d, info, hm, hd, hi⟩)
        · exact Or.inl h
        · exact Or.inr ⟨d, info, List.mem_cons_of_mem _ hm, hd, hi⟩
      · rintro (h | ⟨d, info, hm, hd, hi⟩)
        · exact Or.inl h
        · rcases List.mem_cons.1 hm with hm | hm
          · exact absurd ⟨p, d, info, hm.symm, hd, hi⟩ hno
          · exact Or.inr ⟨d, info, hm, hd, hi⟩
    · rw [h1, GoMap.lookup_insert]
      by_cases hqp : q = p
      · subst hqp
        simp only [if_true]
        constructor
        · intro _
          exact Or.inr ⟨d, info, by rw [hv]; exact List.mem_cons_self _ _, hd, hi⟩
        · intro _
          exact Or.inl (by simp)
      · simp only [hqp, if_false]
        constructor
        · rintro (h | ⟨d', info', hm, hd', hi'⟩)
          · exact Or.inl h
          · exact Or.inr ⟨d', info', List.mem_cons_of_mem _ hm, hd', hi'⟩
        · rintro (h | ⟨d', info', hm, hd', hi'⟩)
          · exact Or.inl h
          · rcases List.mem_cons.1 hm with hm | hm
            · rw [hv] at hm
              cases hm
              exact absurd rfl hqp
            · exact Or.inr ⟨d', info', hm, hd', hi'⟩

/-- A binding found after the walk was there before or comes from a visit
that recorded it. -/
theorem lookup_foldl_origin (vs : List Visit) (acc : GoMap) (p : String) (t : Int)
    (h : (vs.foldl (fun a v => (walkFn a v).1) acc).lookup p = some t) :
    acc.lookup p = some t ∨
      ∃ d info, Visit.entry p d ∈ vs ∧ d.IsDir = false ∧ d.info = Except.ok info ∧
        t = info.modTime.Unix := by
  induction vs generalizing acc with
  | nil => exact Or.inl h
  | cons v vs ih =>
    rw [List.foldl_cons] at h
    rcases ih _ h with h' | ⟨d, info, hm, hd, hi, ht⟩
    · rcases walkFn_cases acc v with ⟨h1, -⟩ | ⟨q, d, info, hv, hd, hi, h1⟩
      · rw [h1] at h'
        exact Or.inl h'
      · rw [h1, GoMap.lookup_insert] at h'
        by_cases hqp : q = p
        · subst hqp
          simp only [if_true, Option.some.injEq] at h'
          exact Or.inr ⟨d, info, by rw [hv]; exact List.mem_cons_self _ _, hd, hi, h'.symm⟩
        · simp only [hqp, if_false] at h'
          exact Or.inl h'
    · exact Or.inr ⟨d, info, List.mem_cons_of_mem _ hm, hd, hi, ht⟩

/-- When all entries at path `p` are the same recordable entry, the walk binds
`p` to the mtime of that entry in seconds. -/
theorem lookup_foldl_unique (vs : List Visit) (acc : GoMap) (p : String) (d : DirEntry)
    (info : FileInfo) (hm : Visit.entry p d ∈ vs) (hd : d.IsDir = false)
    (hi : d.info = Except.ok info) (hu : ∀ d', Visit.entry p d' ∈ vs → d' = d) :
    (vs.foldl (fun a v => (walkFn a v).1) acc).lookup p = some info.modTime.Unix := by
  induction vs generalizing acc with
  | nil => cases hm
  | cons v vs ih =>
    rw [List.foldl_cons]
    by_cases hin : Visit.entry p d ∈ vs
    · exact ih _ hin (fun d' hd' => hu d' (List.mem_cons_of_mem _ hd'))
    · have hv : v = Visit.entry p d := by
        rcases List.mem_cons.1 hm with h | h
        · exact h.symm
        · exact absurd h hin
      have hno : ∀ d', Visit.entry p d' ∉ vs := by
        intro d' hd'
        have := hu d' (List.mem_cons_of_mem _ hd')
        subst this
        exact hin hd'
      rw [lookup_foldl_of_no_entry vs _ p hno, hv, walkFn_record acc p d info hd hi,
        GoMap.lookup_insert]
      simp

theorem GoMap.lookup_empty (p : String) : GoMap.empty.lookup p = none := rfl

theorem GoMap.mem_keys_iff (m : GoMap) (p : String) : p ∈ m.keys ↔ m.lookup p ≠ none := by
  rw [ne_eq, GoMap.lookup_eq_none_iff, not_not]

/-- C8 (as stated, refuted). The keys of the snapshot are not exactly the
regular files: a symbolic link whose metadata can be read is recorded too. -/
theorem C8_counterexample :
    ¬ (∀ p, p ∈ (snapshotOf exTreeLink).keys ↔
        ∃ d info, Visit.entry p d ∈ exTreeLink.visits ∧ d.IsRegular = true ∧
          d.info = Except.ok info) := by
  intro h
  have hk : "/w/link" ∈ (snapshotOf exTreeLink).keys := by decide
  obtain ⟨d, info, hm, hr, -⟩ := (h "/w/link").1 hk
  simp only [exTreeLink, List.mem_cons, Visit.entry.injEq, List.mem_singleton] at hm
  rcases hm with ⟨hp, -⟩ | ⟨-, hd⟩ | hm
  · revert hp; decide
  · subst hd
    revert hr
    decide
  · cases hm

/-- C8 (amended). The keys of the snapshot built by one tick are exactly the
paths of the entries that are not directories and whose entry and metadata
can be read (regular files, and also symbolic links and other non-directory
entries); each key is bound to the mtime in whole seconds of such an entry,
and to that of the entry itself when the path is visited once; directories
are never recorded; and the callback never stops the walk, so an unreadable
entry neither aborts the scan nor removes another file. -/
theorem C8_snapshot_contents (w : WalkOutcome) :
    walkErr w = none ∧
    (∀ p, p ∈ (snapshotOf w).keys ↔
      ∃ d info, Visit.entry p d ∈ w.visits ∧ d.IsDir = false ∧ d.info = Except.ok info) ∧
    (∀ p t, (snapshotOf w).lookup p = some t →
      ∃ d info, Visit.entry p d ∈ w.visits ∧ d.IsDir = false ∧ d.info = Except.ok info ∧
        t = info.modTime.Unix) ∧
    (∀ p d info, Visit.entry p d ∈ w.visits → d.IsDir = false → d.info = Except.ok info →
      (∀ d', Visit.entry p d' ∈ w.visits → d' = d) →
      (snapshotOf w).lookup p = some info.modTime.Unix) := by
  refine ⟨walkErr_eq w, ?_, ?_, ?_⟩
  · intro p
    rw [GoMap.mem_keys_iff, snapshotOf_eq, lookup_foldl_ne_none]
    simp [GoMap.lookup_empty]
  · intro p t h
    rw [snapshotOf_eq] at h
    rcases lookup_foldl_origin _ _ _ _ h with h' | h'
    · rw [GoMap.lookup_empty] at h'
      cases h'
    · exact h'
  · intro p d info hm hd hi hu
    rw [snapshotOf_eq]
    exact lookup_foldl_unique _ _ p d info hm hd hi hu

/-- Binding of a path right after the visit that records it, when no other
visit of the walk is at that path. -/
theorem lookup_snapshot_at (pre post : List Visit) (p : String)
    (d : DirEntry) (info : FileInfo) (hp : p ∉ (pre ++ post).map Visit.path)
    (hd : d.IsDir = false) (hi : d.info = Except.ok info) :
    (snapshotOf ⟨pre ++ Visit.entry p d :: post⟩).lookup p = some info.modTime.Unix := by
  rw [snapshotOf_eq]
  simp only [List.foldl_append, List.foldl_cons]
  have hpost : ∀ d', Visit.entry p d' ∉ post :=
    no_entry_of_not_mem_paths post p (fun h => hp (by
      rw [List.map_append]; exact List.mem_append_right _ h))
  rw [lookup_foldl_of_no_entry post _ p hpost, walkFn_record _ p d info hd hi,
    GoMap.lookup_insert]
  simp

theorem lookup_snapshot_absent (vs : List Visit) (p : String)
    (hp : p ∉ vs.map Visit.path) : (snapshotOf ⟨vs⟩).lookup p = none := by
  rw [snapshotOf_eq]
  simp only
  rw [lookup_foldl_of_no_entry vs _ p (no_entry_of_not_mem_paths vs p hp)]
  rfl

theorem changed_of_lookup_ne (state : GoMap) (c : Chan) (w : WalkOutcome) (p : String)
    (hw : walkErr w = none) (h : state.lookup p ≠ (snapshotOf w).lookup p) :
    (tick state c w).changed = true := by
  rw [tick_changed_eq state c w hw, detectChange_iff_not_mapEq]
  exact fun hEq => h (hEq p)

theorem isDir_of_isRegular (d : DirEntry) (h : d.IsRegular = true) : d.IsDir = false := by
  unfold DirEntry.IsRegular at h
  unfold DirEntry.IsDir
  have ht : d.type = FileType.regular := by simpa using h
  rw [ht]
  rfl

/-- Rewriting a recorded file so that its mtime in whole seconds stays the
same leaves the snapshot as it was. -/
theorem snapshotOf_same_second (pre post : List Visit) (p : String) (d d' : DirEntry)
    (info info' : FileInfo) (hd : d.IsDir = false) (hi : d.info = Except.ok info)
    (hd' : d'.IsDir = false) (hi' : d'.info = Except.ok info')
    (hsame : info'.modTime.Unix = info.modTime.Unix) :
    snapshotOf ⟨pre ++ Visit.entry p d' :: post⟩ = snapshotOf ⟨pre ++ Visit.entry p d :: post⟩ := by
  rw [snapshotOf_eq, snapshotOf_eq]
  simp only [List.foldl_append, List.foldl_cons]
  rw [walkFn_record _ p d info hd hi, walkFn_record _ p d' info' hd' hi', hsame]

/-- C3 (as stated, refuted). A regular file rewritten within the same second
has a new modification time, yet the tick that follows reports no change; and
a regular file added with metadata that cannot be read is not reported either. -/
theorem C3_counterexample :
    ((regularFile 100 200000000).IsRegular = true ∧
      (regularFile 100 800000000).IsRegular = true ∧
      (regularFile 100 200000000).info ≠ (regularFile 100 800000000).info ∧
      walkErr exTree = none ∧ walkErr exTreeSameSecond = none ∧
      (tick (tick GoMap.empty Chan.make exTree).state Chan.make exTreeSameSecond).changed
        = false) ∧
    (unreadableFile.IsRegular = true ∧
      "/w/b.txt" ∉ exTree.visits.map Visit.path ∧
      walkErr exTreeUnreadableAdded = none ∧
      (tick (tick GoMap.empty Chan.make exTree).state Chan.make exTreeUnreadableAdded).changed
        = false) := by
  refine ⟨⟨by decide, by decide, ?_, by decide, by decide, by decide⟩,
    ⟨by decide, by decide, by decide, by decide⟩⟩
  intro h
  simp only [regularFile, Except.ok.injEq, FileInfo.mk.injEq, Time.mk.injEq] at h
  omega

/-- C3 (amended). Let the accepted snapshot be the one of the tree as last
observed, and let the operation be on a regular file whose entry and metadata
can be read. Adding the file at a new path, or deleting it, makes the next
tick report a change; modifying it makes the next tick report a change when
its mtime in whole seconds changes, and is not reported when its mtime in
whole seconds stays the same; and a tick that observes the tree as it was
accepted (no operation occurred) reports no change. -/
theorem C3_detects_operations (pre post : List Visit) (p : String) (d d' : DirEntry)
    (info info' : FileInfo) (hp : p ∉ (pre ++ post).map Visit.path)
    (hd : d.IsRegular = true) (hi : d.info = Except.ok info)
    (hd' : d'.IsRegular = true) (hi' : d'.info = Except.ok info') :
    (∀ state c, MapEq state (snapshotOf ⟨pre ++ post⟩) →
      (tick state c ⟨pre ++ Visit.entry p d :: post⟩).changed = true) ∧
    (∀ state c, MapEq state (snapshotOf ⟨pre ++ Visit.entry p d :: post⟩) →
      (tick state c ⟨pre ++ post⟩).changed = true) ∧
    (∀ state c, MapEq state (snapshotOf ⟨pre ++ Visit.entry p d :: post⟩) →
      info.modTime.Unix ≠ info'.modTime.Unix →
      (tick state c ⟨pre ++ Visit.entry p d' :: post⟩).changed = true) ∧
    (∀ state c, MapEq state (snapshotOf ⟨pre ++ Visit.entry p d :: post⟩) →
      info.modTime.Unix = info'.modTime.Unix →
      (tick state c ⟨pre ++ Visit.entry p d' :: post⟩).changed = false ∧
      (tick state c ⟨pre ++ Visit.entry p d' :: post⟩).sent = false ∧
      (tick state c ⟨pre ++ Visit.entry p d' :: post⟩).state = state) ∧
    (∀ state c w, MapEq state (snapshotOf w) →
      (tick state c w).changed = false ∧ (tick state c w).sent = false ∧
      (tick state c w).state = state) := by
  have hdir := isDir_of_isRegular d hd
  have hdir' := isDir_of_isRegular d' hd'
  have hwith := lookup_snapshot_at pre post p d info hp hdir hi
  have hwith' := lookup_snapshot_at pre post p d' info' hp hdir' hi'
  have hwithout := lookup_snapshot_absent (pre ++ post) p hp
  have hquiet : ∀ state c w, MapEq state (snapshotOf w) →
      (tick state c w).changed = false ∧ (tick state c w).sent = false ∧
      (tick state c w).state = state := by
    intro state c w hacc
    have hc : (tick state c w).changed = false := by
      rw [tick_changed_eq state c w (walkErr_eq w)]
      exact (detectChange_eq_false_iff _ _).2 hacc
    obtain ⟨h1, -, h3⟩ := tick_not_changed state c w hc
    exact ⟨hc, h3, h1⟩
  refine ⟨?_, ?_, ?_, ?_, hquiet⟩
  · intro state c hacc
    refine changed_of_lookup_ne state c _ p (walkErr_eq _) ?_
    rw [hacc p, hwithout, hwith]
    simp
  · intro state c hacc
    refine changed_of_lookup_ne state c _ p (walkErr_eq _) ?_
    rw [hacc p, hwith, hwithout]
    simp
  · intro state c hacc hsec
    refine changed_of_lookup_ne state c _ p (walkErr_eq _) ?_
    rw [hacc p, hwith, hwith']
    intro h
    exact hsec (Option.some.inj h)
  · intro state c hacc hsame
    refine hquiet state c _ ?_
    rw [snapshotOf_same_second pre post p d d' info info' hdir hi hdir' hi' hsame.symm]
    exact hacc

/-- The comment of lines 48-49 against the drain loop: on `exLatePoll` the
file is rewritten while the command runs, the poll that sees it comes after
the drain loop has exited, and the command is started a second time. -/
theorem late_poll_starts_command_again :
    run Sys.init exLatePoll =
      some { state := snapshotOf exTreeModified, change := { len := 0 }, pc := PC.running } :=
  rfl

/-! ## The theorems at concrete inputs -/

/-- C2 at the first tick on `exTree`: the walk succeeds, a change is detected
and the accepted snapshot becomes the observed one. -/
theorem C2_witness :
    walkErr exTree = none ∧
    (tick GoMap.empty Chan.make exTree).changed = true ∧
    (tick GoMap.empty Chan.make exTree).state = snapshotOf exTree :=
  ⟨by decide, by decide,
   ((C2_accept_iff_changed GoMap.empty Chan.make exTree (by decide)).2.1 (by decide)).1⟩

/-- C3 at the tree that holds `a.txt`: adding the file, deleting it and
rewriting it a second later are each reported. -/
theorem C3_witness :
    "/w/a.txt" ∉ ([Visit.entry "/w" rootDir] ++ []).map Visit.path ∧
    (regularFile 100 200000000).IsRegular = true ∧ (regularFile 101 0).IsRegular = true ∧
    (tick (snapshotOf ⟨[Visit.entry "/w" rootDir] ++ []⟩) Chan.make
      ⟨[Visit.entry "/w" rootDir] ++
        Visit.entry "/w/a.txt" (regularFile 100 200000000) :: []⟩).changed = true ∧
    (tick (snapshotOf
        ⟨[Visit.entry "/w" rootDir] ++
          Visit.entry "/w/a.txt" (regularFile 100 200000000) :: []⟩) Chan.make
      ⟨[Visit.entry "/w" rootDir] ++ []⟩).changed = true ∧
    (tick (snapshotOf
        ⟨[Visit.entry "/w" rootDir] ++
          Visit.entry "/w/a.txt" (regularFile 100 200000000) :: []⟩) Chan.make
      ⟨[Visit.entry "/w" rootDir] ++
        Visit.entry "/w/a.txt" (regularFile 101 0) :: []⟩).changed = true :=
  have h := C3_detects_operations [Visit.entry "/w" rootDir] [] "/w/a.txt"
    (regularFile 100 200000000) (regularFile 101 0)
    { modTime := { sec := 100, nsec := 200000000 } } { modTime := { sec := 101, nsec := 0 } }
    (by decide) (by decide) rfl (by decide) rfl
  ⟨by decide, by decide, by decide,
   h.1 _ Chan.make (fun _ => rfl),
   h.2.1 _ Chan.make (fun _ => rfl),
   h.2.2.1 _ Chan.make (fun _ => rfl) (by decide)⟩

/-- C4 at `exTree`: after the first tick and a driver step, a second tick
that observes the same tree detects nothing and sends nothing. -/
theorem C4_witness :
    observes (snapshotOf exTree) (Action.tick exTree) ∧
    step Sys.init (Action.tick exTree) = some exAfterFirstTick ∧
    run exAfterFirstTick [Action.driver] =
      some { state := snapshotOf exTree, change := { len := 0 }, pc := PC.running } ∧
    (tick (snapshotOf exTree) { len := 0 } exTree).changed = false ∧
    (tick (snapshotOf exTree) { len := 0 } exTree).sent = false ∧
    (tick (snapshotOf exTree) { len := 0 } exTree).state = exAfterFirstTick.state ∧
    (tick (snapshotOf exTree) { len := 0 } exTree).change = { len := 0 } :=
  ⟨⟨by decide, fun _ => rfl⟩, rfl, rfl,
   C4_idempotent Sys.init exAfterFirstTick (snapshotOf exTree) exTree
     ⟨by decide, fun _ => rfl⟩ rfl
     [Action.driver, Action.tick exTree]
     (by
       intro a ha
       simp only [List.mem_cons, List.mem_singleton, List.not_mem_nil, or_false] at ha
       rcases ha with rfl | rfl
       · trivial
       · exact ⟨by decide, fun _ => rfl⟩)
     [Action.driver] [] exTree
     { state := snapshotOf exTree, change := { len := 0 }, pc := PC.running } rfl rfl⟩

/-- C5 at a full channel: a tick that detects the modification while a
notification is pending skips the send and leaves one pending notification. -/
theorem C5_witness :
    run Sys.init [Action.tick exTree] = some exAfterFirstTick ∧
    (tick exAfterFirstTick.state exAfterFirstTick.change exTreeModified).changed = true ∧
    exAfterFirstTick.change.len ≤ 1 ∧
    (tick exAfterFirstTick.state exAfterFirstTick.change exTreeModified).change.len = 1 ∧
    (tick exAfterFirstTick.state exAfterFirstTick.change exTreeModified).sent = false :=
  have h := C5_coalescing [Action.tick exTree] exAfterFirstTick rfl exTreeModified (by decide)
  ⟨rfl, by decide, h.1, h.2.1, (h.2.2.2.1 rfl).1⟩

/-- C6 on `exSchedule`: a change is detected while the command runs, the
drain loop discards its notification, and after the exit of the loop the
channel is empty and the driver cannot start the command. -/
theorem C6_witness :
    run Sys.init exSchedule = some exAtDrainTest ∧
    exAtDrainTest.pc = PC.drainTest ∧
    step exAtDrainTest Action.driver = some exDrained ∧
    exDrained.pc = PC.waiting ∧
    exDrained.change.len = 0 ∧
    step exDrained Action.driver = none :=
  have h := C6_drain_correct exSchedule exAtDrainTest exDrained rfl rfl rfl rfl
  ⟨rfl, rfl, rfl, rfl, h.1, h.2.1⟩

/-- C9 on two successful ticks with a driver step in between: the accepted
snapshot is the one the second tick observed. -/
theorem C9_witness :
    run Sys.init [Action.tick exTree, Action.driver, Action.tick exTreeModified] =
      some exAfterSecondTick ∧
    MapEq exAfterSecondTick.state
      (lastObserved GoMap.empty [Action.tick exTree, Action.driver, Action.tick exTreeModified]) :=
  ⟨rfl, (C9_accepted_is_last_observed
    [Action.tick exTree, Action.driver, Action.tick exTreeModified] exAfterSecondTick rfl).2⟩

/-- C10 at startup: the first tick, on a tree with one file, detects a change
and sends. -/
theorem C10_witness :
    (∀ a ∈ ([] : List Action), notSuccessfulTick a) ∧
    run Sys.init [] = some Sys.init ∧
    walkErr exTree = none ∧
    ((tick Sys.init.state Sys.init.change exTree).changed = true ↔
      (snapshotOf exTree).entries ≠ []) ∧
    (tick Sys.init.state Sys.init.change exTree).sent =
      (tick Sys.init.state Sys.init.change exTree).changed :=
  have hpre : ∀ a ∈ ([] : List Action), notSuccessfulTick a := by
    intro a ha
    cases ha
  have h := C10_startup [] Sys.init hpre rfl exTree (by decide)
  ⟨hpre, rfl, by decide, h.1, h.2.1⟩

end Watchme
